import Mathlib

/-!
Verification of the Fix&Furn concierge core: a shallow embedding of
`src/tools.py` (catalog lookup, reference-dataset search, repair estimation)
and `src/app.py` (tool dispatcher and conversation orchestrator), with
theorems settling the specification claims.

Python strings are modelled as Lean `String` (a wrapper around `List Char`);
Python numbers appearing in price-rule buckets are modelled as `ℚ`
(the data files hold decimal literals, which floats represent exactly at the
magnitudes involved); Python `round` (banker's rounding, half-to-even) is
modelled explicitly as `pyRound : ℚ → ℤ`.
-/

namespace FixFurn

/-! ## Python string primitives -/

/-- Python `str.lower()` (ASCII case folding, one character at a time). -/
def lowerStr (s : String) : String := ⟨s.data.map Char.toLower⟩

/-- Python `str.strip()` on a character list: drop leading and trailing
whitespace. -/
def stripL (l : List Char) : List Char :=
  ((l.dropWhile Char.isWhitespace).reverse.dropWhile Char.isWhitespace).reverse

/-- Python `str.strip()`. -/
def stripStr (s : String) : String := ⟨stripL s.data⟩

/-- A Python regex word character (`\w`): alphanumeric or underscore. -/
def isWordChar (c : Char) : Bool := c.isAlphanum || c = '_'

/-- Accumulator-based tokenizer: `splitWordsAux cs acc` scans `cs`, with
`acc` holding the (reversed) current run of word characters.  Runs of
non-word characters separate tokens and empty tokens are not produced,
matching `[w for w in re.split(r"\W+", q) if w]` in `_search_ikea_items`. -/
def splitWordsAux : List Char → List Char → List (List Char)
  | [], acc => if acc = [] then [] else [acc.reverse]
  | c :: cs, acc =>
    if isWordChar c then splitWordsAux cs (c :: acc)
    else if acc = [] then splitWordsAux cs []
    else acc.reverse :: splitWordsAux cs []

/-- `re.split(r"\W+", q)` with empty tokens removed. -/
def splitWords (l : List Char) : List (List Char) := splitWordsAux l []

/-- Every token produced by the tokenizer is a contiguous substring of the
input (with the pending accumulator prepended). -/
theorem splitWordsAux_infix :
    ∀ (cs acc : List Char), ∀ w ∈ splitWordsAux cs acc, w <:+: (acc.reverse ++ cs) := by
  intro cs
  induction cs with
  | nil =>
    intro acc w hw
    unfold splitWordsAux at hw
    by_cases h : acc = []
    · simp [h] at hw
    · simp [h] at hw
      subst hw
      simp
  | cons c cs ih =>
    intro acc w hw
    unfold splitWordsAux at hw
    by_cases hword : isWordChar c
    · simp only [hword, if_true] at hw
      have := ih (c :: acc) w hw
      simpa [List.append_assoc] using this
    · simp only [hword, Bool.false_eq_true, if_false] at hw
      by_cases hacc : acc = []
      · simp only [hacc, if_true] at hw
        have := ih [] w hw
        simp only [List.reverse_nil, List.nil_append] at this
        exact this.trans ((List.suffix_cons c cs).isInfix.trans (List.suffix_append _ _).isInfix)
      · simp only [hacc, if_false] at hw
        rcases List.mem_cons.mp hw with h | h
        · subst h
          exact (List.prefix_append _ _).isInfix
        · have := ih [] w h
          simp only [List.reverse_nil, List.nil_append] at this
          exact this.trans ((List.suffix_cons c cs).isInfix.trans (List.suffix_append _ _).isInfix)

/-- Every word produced by `splitWords` is a contiguous substring of the
input. -/
theorem splitWords_infix (l : List Char) : ∀ w ∈ splitWords l, w <:+: l := by
  intro w hw
  simpa using splitWordsAux_infix l [] w hw

/-- `lowerStr` is empty exactly when its input is. -/
theorem lowerStr_eq_empty_iff (s : String) : lowerStr s = "" ↔ s = "" := by
  constructor
  · intro h
    have hd : (s.data.map Char.toLower) = [] := congrArg String.data h
    simp only [List.map_eq_nil_iff] at hd
    exact String.ext hd
  · intro h
    subst h
    rfl

/-! ## Python `round` on rationals

Python 3 `round(x)` with a single argument rounds to the nearest integer,
breaking ties toward the even integer (banker's rounding). -/

/-- Python `round(q)`: nearest integer, ties to even. -/
def pyRound (q : ℚ) : ℤ :=
  if q - (Rat.floor q : ℚ) < 1/2 then Rat.floor q
  else if 1/2 < q - (Rat.floor q : ℚ) then Rat.floor q + 1
  else if Rat.floor q % 2 = 0 then Rat.floor q else Rat.floor q + 1

/-- `Rat.floor` agrees with the `FloorRing` floor. -/
theorem ratFloor_eq_floor (q : ℚ) : Rat.floor q = ⌊q⌋ := by
  rw [Rat.floor_def', Rat.floor_def]

/-- `pyRound` never undershoots the floor. -/
theorem floor_le_pyRound (q : ℚ) : ⌊q⌋ ≤ pyRound q := by
  unfold pyRound
  rw [ratFloor_eq_floor]
  split_ifs <;> omega

/-- `pyRound` never exceeds the floor by more than one. -/
theorem pyRound_le_floor_add_one (q : ℚ) : pyRound q ≤ ⌊q⌋ + 1 := by
  unfold pyRound
  rw [ratFloor_eq_floor]
  split_ifs <;> omega

/-- Banker's rounding is monotone. -/
theorem pyRound_mono {p q : ℚ} (h : p ≤ q) : pyRound p ≤ pyRound q := by
  have hf : ⌊p⌋ ≤ ⌊q⌋ := Int.floor_le_floor h
  rcases lt_or_eq_of_le hf with hlt | heq
  · calc pyRound p ≤ ⌊p⌋ + 1 := pyRound_le_floor_add_one p
    _ ≤ ⌊q⌋ := by omega
    _ ≤ pyRound q := floor_le_pyRound q
  · have hc : ((⌊p⌋ : ℤ) : ℚ) = ((⌊q⌋ : ℤ) : ℚ) := by rw [heq]
    have hr : p - ((⌊p⌋ : ℤ) : ℚ) ≤ q - ((⌊q⌋ : ℤ) : ℚ) := sub_le_sub h (le_of_eq hc.symm)
    unfold pyRound
    rw [ratFloor_eq_floor, ratFloor_eq_floor]
    split_ifs <;> first
      | omega
      | (exfalso; linarith)

/-! ## Repair estimator (`estimate_repair` in src/tools.py)

The nested JSON rule table `PRICE_RULES` is modelled as an association list
(JSON objects are ordered maps with unique keys; `next(iter(rules.values()))`
is the first entry).  Bucket numbers are modelled as `ℚ`. -/

/-- One `(min price, max price, min days, max days)` rule bucket. -/
structure Bucket4 where
  minP : ℚ
  maxP : ℚ
  minD : ℚ
  maxD : ℚ
deriving DecidableEq

/-- One pricing tier: a rounded price and a `[low, high]` day range. -/
structure Tier where
  price : ℤ
  days : ℚ × ℚ
deriving DecidableEq

/-- The three tiers returned by `estimate_repair`. -/
structure Estimate where
  budget : Tier
  standard : Tier
  rush : Tier
deriving DecidableEq

/-- Result of `estimate_repair`: either `{ok: False, msg}` or
`{ok: True, issue, material, size, estimate}`. -/
inductive RepairResult where
  | failure (msg : String)
  | success (issue material size : String) (estimate : Estimate)
deriving DecidableEq

/-- size bucket name → 4-tuple. -/
abbrev SizeRules := List (String × Bucket4)

/-- material name (or "any") → size rules. -/
abbrev MaterialRules := List (String × SizeRules)

/-- issue name → material rules. -/
abbrev PriceTable := List (String × MaterialRules)

/-- Python `dict` lookup on an association list (keys are unique in a
parsed JSON object; `find?` takes the first). -/
def lookupA {α : Type} (l : List (String × α)) (k : String) : Option α :=
  (l.find? (fun p => p.1 = k)).map (fun p => p.2)

/-- The tier table computed from a resolved bucket (src/tools.py lines
239-243). -/
def mkTiers (b : Bucket4) : Estimate :=
  { budget := ⟨pyRound (b.minP * (9/10)), (b.minD, max b.minD (b.minD + 1))⟩
    standard := ⟨pyRound ((b.minP + b.maxP) / 2), (b.minD, b.maxD)⟩
    rush := ⟨pyRound (b.maxP * (5/4)), (max 1 (b.minD - 1), max 1 (b.maxD - 1))⟩ }

/-- Bucket selection (src/tools.py lines 230-235): exact material match,
else the `"any"` entry, else the first entry of the issue's rule mapping. -/
def selectBucket (rules : MaterialRules) (material : String) : Option SizeRules :=
  match lookupA rules material with
  | some b => some b
  | none =>
    match lookupA rules "any" with
    | some b => some b
    | none => rules.head?.map (fun p => p.2)

/-- Python `issue.strip().lower()`. -/
def normalizeIssue (issue : String) : String := lowerStr (stripStr issue)

/-- Python `(material or "any").strip().lower()`. -/
def normalizeMaterial (material : String) : String :=
  lowerStr (stripStr (if material = "" then "any" else material))

/-- Python `(size_category or "medium").strip().lower()`. -/
def normalizeSize (size_category : String) : String :=
  lowerStr (stripStr (if size_category = "" then "medium" else size_category))

/-- The tail of `estimate_repair` after the bucket is resolved
(src/tools.py lines 236-244). -/
def finishEstimate (issue material size : String) (bucket : SizeRules) : RepairResult :=
  match lookupA bucket size with
  | none =>
    .failure ("Unsupported size_category \x27" ++ size ++ "\x27. Use small/medium/large.")
  | some b => .success issue material size (mkTiers b)

/-- `estimate_repair(issue, material="any", size_category="medium")`
(src/tools.py lines 223-244).  The `none` branch of `selectBucket` is
unreachable because it is guarded by `rules ≠ []`. -/
def estimate_repair (table : PriceTable) (issue material size_category : String) :
    RepairResult :=
  match lookupA table (normalizeIssue issue) with
  | none => .failure ("No pricing rule for issue \x27" ++ normalizeIssue issue ++ "\x27.")
  | some rules =>
    if rules = [] then
      .failure ("No pricing rule for issue \x27" ++ normalizeIssue issue ++ "\x27.")
    else
      match selectBucket rules (normalizeMaterial material) with
      | some bucket =>
        finishEstimate (normalizeIssue issue) (normalizeMaterial material)
          (normalizeSize size_category) bucket
      | none => .failure "unreachable: rules is nonempty"

/-- Spec §3 invariant for a bucket: all four numbers non-negative and
min ≤ max within each pair. -/
def wfBucket (b : Bucket4) : Prop :=
  0 ≤ b.minP ∧ b.minP ≤ b.maxP ∧ 0 ≤ b.minD ∧ b.minD ≤ b.maxD

/-- All buckets in a price table are well-formed. -/
def wfTable (table : PriceTable) : Prop :=
  ∀ im ∈ table, ∀ mb ∈ im.2, ∀ sb ∈ mb.2, wfBucket sb.2

instance (b : Bucket4) : Decidable (wfBucket b) := by
  unfold wfBucket
  infer_instance

instance (table : PriceTable) : Decidable (wfTable table) := by
  unfold wfTable
  infer_instance

theorem lookupA_mem {α : Type} {l : List (String × α)} {k : String} {v : α}
    (h : lookupA l k = some v) : (k, v) ∈ l := by
  unfold lookupA at h
  cases hf : l.find? (fun p => p.1 = k) with
  | none => rw [hf] at h; simp at h
  | some p =>
    rw [hf] at h
    have h : p.2 = v := by simpa using h
    have hp := List.find?_some hf
    have hm := List.mem_of_find?_eq_some hf
    rw [decide_eq_true_eq] at hp
    rw [← h, ← hp]
    simpa using hm

theorem selectBucket_mem {rules : MaterialRules} {m : String} {b : SizeRules}
    (h : selectBucket rules m = some b) : ∃ k, (k, b) ∈ rules := by
  unfold selectBucket at h
  cases h1 : lookupA rules m with
  | some b1 =>
    rw [h1] at h
    simp only [Option.some.injEq] at h
    exact ⟨m, h ▸ lookupA_mem h1⟩
  | none =>
    rw [h1] at h
    cases h2 : lookupA rules "any" with
    | some b2 =>
      rw [h2] at h
      simp only [Option.some.injEq] at h
      exact ⟨"any", h ▸ lookupA_mem h2⟩
    | none =>
      rw [h2] at h
      cases rules with
      | nil => simp at h
      | cons p rest =>
        have hb : p.2 = b := by simpa using h
        exact ⟨p.1, by rw [← hb]; simp⟩

theorem selectBucket_ne_none (rules : MaterialRules) (m : String) (hne : rules ≠ []) :
    ∃ b, selectBucket rules m = some b := by
  unfold selectBucket
  cases h1 : lookupA rules m with
  | some b1 => exact ⟨b1, rfl⟩
  | none =>
    cases h2 : lookupA rules "any" with
    | some b2 => exact ⟨b2, rfl⟩
    | none =>
      cases rules with
      | nil => exact absurd rfl hne
      | cons p rest => exact ⟨p.2, rfl⟩

/-- Modelled from the spec: the repository's `price_rules.json` data file is
not under src/.  This table holds the one bucket the spec scenario fixes:
`(wobble, wood, large) ↦ (80, 150, 2, 4)`. -/
def wobblePriceTable : PriceTable :=
  [("wobble", [("wood", [("large", ⟨80, 150, 2, 4⟩)])])]

/-- **C4**: for every rule bucket with all four numbers non-negative and
min ≤ max within each pair, `estimate_repair` returns tiers whose prices
satisfy `budget.price ≤ standard.price ≤ rush.price`, with
`budget.price = round(min·0.9)`, `standard.price = round((min+max)/2)` and
`rush.price = round(max·1.25)`. -/
theorem estimate_repair_tier_prices_ordered
    (table : PriceTable) (issue material size_category : String)
    (hwf : wfTable table) (i m s : String) (est : Estimate)
    (h : estimate_repair table issue material size_category = .success i m s est) :
    ∃ b : Bucket4, wfBucket b ∧ est = mkTiers b ∧
      est.budget.price = pyRound (b.minP * (9/10)) ∧
      est.standard.price = pyRound ((b.minP + b.maxP) / 2) ∧
      est.rush.price = pyRound (b.maxP * (5/4)) ∧
      est.budget.price ≤ est.standard.price ∧
      est.standard.price ≤ est.rush.price := by
  unfold estimate_repair at h
  cases ht : lookupA table (normalizeIssue issue) with
  | none =>
    simp only [ht] at h
    exact absurd h (by simp)
  | some rules =>
    simp only [ht] at h
    by_cases hne : rules = []
    · rw [if_pos hne] at h
      exact absurd h (by simp)
    · rw [if_neg hne] at h
      cases hsel : selectBucket rules (normalizeMaterial material) with
      | none =>
        simp only [hsel] at h
        exact absurd h (by simp)
      | some bucket =>
        simp only [hsel] at h
        unfold finishEstimate at h
        cases hb : lookupA bucket (normalizeSize size_category) with
        | none =>
          simp only [hb] at h
          exact absurd h (by simp)
        | some b4 =>
          simp only [hb] at h
          have hest : est = mkTiers b4 := by
            cases h
            rfl
          obtain ⟨k, hkmem⟩ := selectBucket_mem hsel
          have h1 := lookupA_mem ht
          have h3 := lookupA_mem hb
          have hwfb : wfBucket b4 := hwf _ h1 _ hkmem _ h3
          obtain ⟨hp0, hpm, hd0, hdm⟩ := hwfb
          have hpa : b4.minP * (9/10) ≤ (b4.minP + b4.maxP) / 2 := by linarith
          have hpb : (b4.minP + b4.maxP) / 2 ≤ b4.maxP * (5/4) := by linarith
          subst hest
          exact ⟨b4, ⟨hp0, hpm, hd0, hdm⟩, rfl, rfl, rfl, rfl,
            pyRound_mono hpa, pyRound_mono hpb⟩

unseal Rat.mul Rat.inv Rat.add Rat.sub in
/-- Witness for `estimate_repair_tier_prices_ordered` at the concrete
wobble/wood/large bucket. -/
theorem estimate_repair_tier_prices_ordered_witness :
    wfTable wobblePriceTable ∧
    (∃ b : Bucket4, wfBucket b ∧ mkTiers ⟨80, 150, 2, 4⟩ = mkTiers b ∧
      (mkTiers (⟨80, 150, 2, 4⟩ : Bucket4)).budget.price = pyRound (b.minP * (9/10)) ∧
      (mkTiers (⟨80, 150, 2, 4⟩ : Bucket4)).standard.price = pyRound ((b.minP + b.maxP) / 2) ∧
      (mkTiers (⟨80, 150, 2, 4⟩ : Bucket4)).rush.price = pyRound (b.maxP * (5/4)) ∧
      (mkTiers (⟨80, 150, 2, 4⟩ : Bucket4)).budget.price ≤
        (mkTiers (⟨80, 150, 2, 4⟩ : Bucket4)).standard.price ∧
      (mkTiers (⟨80, 150, 2, 4⟩ : Bucket4)).standard.price ≤
        (mkTiers (⟨80, 150, 2, 4⟩ : Bucket4)).rush.price) :=
  ⟨by decide,
    estimate_repair_tier_prices_ordered wobblePriceTable "wobble" "wood" "large"
      (by decide) "wobble" "wood" "large" (mkTiers ⟨80, 150, 2, 4⟩) (by decide)⟩

unseal Rat.mul Rat.inv Rat.add Rat.sub in
/-- **C5**: on the resolved bucket `(80, 150, 2, 4)` (spec scenario
wobble/wood/large), `estimate_repair` yields budget 72 with days [2,3],
standard 115 with days [2,4], rush 188 with days [1,3]; rounding is
half-to-even (`round(187.5) = 188`); and in general
`budget.days = [min_d, max(min_d, min_d+1)]`, `standard.days = [min_d, max_d]`,
`rush.days = [max(1, min_d-1), max(1, max_d-1)]`. -/
theorem estimate_repair_scenario_values :
    estimate_repair wobblePriceTable "wobble" "wood" "large" =
      .success "wobble" "wood" "large" (mkTiers ⟨80, 150, 2, 4⟩) ∧
    (mkTiers (⟨80, 150, 2, 4⟩ : Bucket4)).budget = ⟨72, (2, 3)⟩ ∧
    (mkTiers (⟨80, 150, 2, 4⟩ : Bucket4)).standard = ⟨115, (2, 4)⟩ ∧
    (mkTiers (⟨80, 150, 2, 4⟩ : Bucket4)).rush = ⟨188, (1, 3)⟩ ∧
    pyRound (375/2) = 188 ∧
    (∀ b : Bucket4,
      (mkTiers b).budget.days = (b.minD, max b.minD (b.minD + 1)) ∧
      (mkTiers b).standard.days = (b.minD, b.maxD) ∧
      (mkTiers b).rush.days = (max 1 (b.minD - 1), max 1 (b.maxD - 1))) :=
  ⟨by decide, by decide, by decide, by decide, by decide, fun b => ⟨rfl, rfl, rfl⟩⟩

/-- **C7**: for a known issue, `estimate_repair` resolves the bucket by the
exact precedence: entry keyed by the normalized material, else the `"any"`
entry, else the first-encountered entry of the issue's rule mapping. -/
theorem estimate_repair_material_precedence
    (table : PriceTable) (issue material size_category : String)
    (rules : MaterialRules)
    (ht : lookupA table (normalizeIssue issue) = some rules)
    (hne : rules ≠ []) :
    (∀ b, lookupA rules (normalizeMaterial material) = some b →
        selectBucket rules (normalizeMaterial material) = some b) ∧
    (lookupA rules (normalizeMaterial material) = none →
      ∀ b, lookupA rules "any" = some b →
        selectBucket rules (normalizeMaterial material) = some b) ∧
    (lookupA rules (normalizeMaterial material) = none →
      lookupA rules "any" = none →
        selectBucket rules (normalizeMaterial material) = rules.head?.map (fun p => p.2)) ∧
    (∃ bucket, selectBucket rules (normalizeMaterial material) = some bucket ∧
      estimate_repair table issue material size_category =
        finishEstimate (normalizeIssue issue) (normalizeMaterial material)
          (normalizeSize size_category) bucket) := by
  refine ⟨?_, ?_, ?_, ?_⟩
  · intro b hb
    unfold selectBucket
    rw [hb]
  · intro h0 b hb
    unfold selectBucket
    rw [h0, hb]
  · intro h0 h1
    unfold selectBucket
    rw [h0, h1]
  · obtain ⟨bucket, hsel⟩ := selectBucket_ne_none rules (normalizeMaterial material) hne
    refine ⟨bucket, hsel, ?_⟩
    unfold estimate_repair
    simp only [ht]
    rw [if_neg hne]
    simp only [hsel]

unseal Rat.mul Rat.inv Rat.add Rat.sub in
/-- Witness for `estimate_repair_material_precedence` on the concrete
wobble table. -/
theorem estimate_repair_material_precedence_witness :
    lookupA wobblePriceTable (normalizeIssue "wobble") =
      some [("wood", [("large", ⟨80, 150, 2, 4⟩)])] ∧
    ([("wood", [("large", (⟨80, 150, 2, 4⟩ : Bucket4))])] : MaterialRules) ≠ [] ∧
    ((∀ b, lookupA [("wood", [("large", (⟨80, 150, 2, 4⟩ : Bucket4))])]
          (normalizeMaterial "wood") = some b →
        selectBucket [("wood", [("large", ⟨80, 150, 2, 4⟩)])]
          (normalizeMaterial "wood") = some b) ∧
    (lookupA [("wood", [("large", (⟨80, 150, 2, 4⟩ : Bucket4))])]
        (normalizeMaterial "wood") = none →
      ∀ b, lookupA [("wood", [("large", (⟨80, 150, 2, 4⟩ : Bucket4))])] "any" = some b →
        selectBucket [("wood", [("large", ⟨80, 150, 2, 4⟩)])]
          (normalizeMaterial "wood") = some b) ∧
    (lookupA [("wood", [("large", (⟨80, 150, 2, 4⟩ : Bucket4))])]
        (normalizeMaterial "wood") = none →
      lookupA [("wood", [("large", (⟨80, 150, 2, 4⟩ : Bucket4))])] "any" = none →
        selectBucket [("wood", [("large", ⟨80, 150, 2, 4⟩)])]
          (normalizeMaterial "wood") =
          ([("wood", [("large", (⟨80, 150, 2, 4⟩ : Bucket4))])] : MaterialRules).head?.map
            (fun p => p.2)) ∧
    (∃ bucket, selectBucket [("wood", [("large", ⟨80, 150, 2, 4⟩)])]
          (normalizeMaterial "wood") = some bucket ∧
      estimate_repair wobblePriceTable "wobble" "wood" "large" =
        finishEstimate (normalizeIssue "wobble") (normalizeMaterial "wood")
          (normalizeSize "large") bucket)) :=
  ⟨by decide, by decide,
    estimate_repair_material_precedence wobblePriceTable "wobble" "wood" "large"
      [("wood", [("large", ⟨80, 150, 2, 4⟩)])] (by decide) (by decide)⟩

/-! ## Reference-dataset search (`_search_ikea_items` in src/tools.py) -/

/-- One row of the loaded reference dataset (`_load_ikea_catalog`).  The
search logic reads `item_id`, `name` and the internal `_search` text
(modelled as `srch`); the remaining public descriptive fields are inert for
every claim, represented here by `category`. -/
structure IkeaItem where
  item_id : String
  name : String
  category : String
  srch : String
deriving DecidableEq

/-- A reference row with the internal fields removed. -/
structure PubIkeaItem where
  item_id : String
  name : String
  category : String
deriving DecidableEq

/-- `_copy_public_item`: keep exactly the keys not starting with `_`
(the only internal key the loader creates is `_search`). -/
def copyPublicItem (it : IkeaItem) : PubIkeaItem :=
  ⟨it.item_id, it.name, it.category⟩

/-- The score `_search_ikea_items` assigns one row, given the normalized
query `q` and its word list `ws` (src/tools.py lines 133-139). -/
def scoreOf (q : String) (ws : List String) (it : IkeaItem) : Nat :=
  (if q = lowerStr it.item_id then 10 else 0) +
  (if q.data <:+: it.srch.data then 3 else 0) +
  (ws.filter (fun w => w ≠ "" ∧ w.data <:+: it.srch.data)).length

/-- Dict-with-insertion-order update used to collapse duplicate `item_id`s
(src/tools.py lines 140-143): the first entry with the same key keeps its
position and is replaced only when the new score is strictly greater; an
unseen key is appended at the end. -/
def updateScored (s : Nat) (it : IkeaItem) : List (Nat × IkeaItem) → List (Nat × IkeaItem)
  | [] => [(s, it)]
  | e :: rest =>
    if e.2.item_id = it.item_id then
      if e.1 < s then (s, it) :: rest else e :: rest
    else e :: updateScored s it rest

/-- One iteration of the scoring loop (src/tools.py lines 132-143): compute
the row's score and record it when positive. -/
def scoreStep (q : String) (ws : List String) (acc : List (Nat × IkeaItem))
    (it : IkeaItem) : List (Nat × IkeaItem) :=
  if 0 < scoreOf q ws it then updateScored (scoreOf q ws it) it acc else acc

/-- Lexicographic `≤` on character lists, comparing code points — Python's
string order, used by `sorted` on the `name` component of the key. -/
def lexLeB : List Char → List Char → Bool
  | [], _ => true
  | _ :: _, [] => false
  | a :: as, b :: bs =>
    if a.toNat < b.toNat then true
    else if b.toNat < a.toNat then false
    else lexLeB as bs

theorem lexLeB_total : ∀ xs ys : List Char, lexLeB xs ys = true ∨ lexLeB ys xs = true := by
  intro xs
  induction xs with
  | nil => intro ys; left; rfl
  | cons a as ih =>
    intro ys
    cases ys with
    | nil => right; rfl
    | cons b bs =>
      unfold lexLeB
      rcases Nat.lt_trichotomy a.toNat b.toNat with h | h | h
      · left
        simp [h]
      · rcases ih bs with h2 | h2
        · left
          simp [h, h2]
        · right
          simp [h, h2]
      · right
        simp [h, Nat.lt_asymm h]

theorem lexLeB_trans :
    ∀ xs ys zs : List Char, lexLeB xs ys = true → lexLeB ys zs = true →
      lexLeB xs zs = true := by
  intro xs
  induction xs with
  | nil => intro ys zs h1 h2; rfl
  | cons a as ih =>
    intro ys zs h1 h2
    cases ys with
    | nil => exact absurd h1 (by simp [lexLeB])
    | cons b bs =>
      cases zs with
      | nil => exact absurd h2 (by simp [lexLeB])
      | cons c cs =>
        unfold lexLeB at h1 h2 ⊢
        by_cases hab : a.toNat < b.toNat
        · by_cases hbc : b.toNat < c.toNat
          · simp [Nat.lt_trans hab hbc]
          · simp only [hbc, if_false] at h2
            by_cases hcb : c.toNat < b.toNat
            · simp [hcb] at h2
            · have : b.toNat = c.toNat := by omega
              simp [this ▸ hab]
        · simp only [hab, if_false] at h1
          by_cases hba : b.toNat < a.toNat
          · simp [hba] at h1
          · have hab' : a.toNat = b.toNat := by omega
            by_cases hbc : b.toNat < c.toNat
            · simp [hab' ▸ hbc]
            · simp only [hbc, if_false] at h2
              by_cases hcb : c.toNat < b.toNat
              · simp [hcb] at h2
              · have hbc' : b.toNat = c.toNat := by omega
                have hac : ¬ a.toNat < c.toNat := by omega
                have hca : ¬ c.toNat < a.toNat := by omega
                rw [if_neg hba] at h1
                rw [if_neg hcb] at h2
                rw [if_neg hac, if_neg hca]
                exact ih bs cs h1 h2

/-- `sorted(scored.values(), key=lambda pair: (-pair[0], pair[1]["name"]))`:
the total preorder "key of `a` ≤ key of `b`" on (negated score, name).
A stable sort under this preorder is exactly Python's stable `sorted`. -/
def rankLE (a b : Nat × IkeaItem) : Prop :=
  b.1 < a.1 ∨ (a.1 = b.1 ∧ lexLeB a.2.name.data b.2.name.data = true)

instance : DecidableRel rankLE := fun a b => by
  unfold rankLE
  infer_instance

instance : IsTotal (Nat × IkeaItem) rankLE := by
  constructor
  intro a b
  unfold rankLE
  rcases Nat.lt_trichotomy a.1 b.1 with h | h | h
  · right; left; exact h
  · rcases lexLeB_total a.2.name.data b.2.name.data with h2 | h2
    · left; right; exact ⟨h, h2⟩
    · right; right; exact ⟨h.symm, h2⟩
  · left; left; exact h

instance : IsTrans (Nat × IkeaItem) rankLE := by
  constructor
  intro a b c hab hbc
  unfold rankLE at hab hbc ⊢
  rcases hab with h1 | ⟨h1, h1n⟩
  · rcases hbc with h2 | ⟨h2, _⟩
    · left; omega
    · left; omega
  · rcases hbc with h2 | ⟨h2, h2n⟩
    · left; omega
    · right
      exact ⟨h1.trans h2, lexLeB_trans _ _ _ h1n h2n⟩

/-- Python `query.strip().lower()` — the normalized query. -/
def queryNorm (query : String) : String := lowerStr (stripStr query)

/-- `[w for w in re.split(r"\\W+", q) if w]` as Lean strings. -/
def queryWords (q : String) : List String := (splitWords q.data).map String.mk

/-- `_search_ikea_items(query, limit)` (src/tools.py lines 124-147). -/
def searchIkeaItems (items : List IkeaItem) (query : String) (limit : Nat) :
    List PubIkeaItem :=
  if items = [] then []
  else if queryNorm query = "" then []
  else if items.foldl (scoreStep (queryNorm query) (queryWords (queryNorm query))) [] = []
  then []
  else
    ((List.insertionSort rankLE
        (items.foldl (scoreStep (queryNorm query) (queryWords (queryNorm query))) [])).take
      limit).map (fun e => copyPublicItem e.2)

/-- The reference-search pipeline as spec §4.1 words it: score every item,
drop the zero scores, collapse duplicate ids to the highest-scoring
instance, sort stably by (score descending, name ascending), cap at 5, and
strip the internal fields. -/
def searchIkeaItemsSpec (items : List IkeaItem) (query : String) : List PubIkeaItem :=
  if queryNorm query = "" then []
  else
    ((List.insertionSort rankLE
        (((items.map (fun it =>
              (scoreOf (queryNorm query) (queryWords (queryNorm query)) it, it))).filter
            (fun e => 0 < e.1)).foldl (fun acc e => updateScored e.1 e.2 acc) [])).take
      5).map (fun e => copyPublicItem e.2)

/-- Folding the guarded scoring step over the rows equals folding the plain
collapse step over the score-positive pairs. -/
theorem foldl_scoreStep_eq (q : String) (ws : List String) :
    ∀ (items : List IkeaItem) (acc : List (Nat × IkeaItem)),
      items.foldl (scoreStep q ws) acc =
        ((items.map (fun it => (scoreOf q ws it, it))).filter (fun e => 0 < e.1)).foldl
          (fun acc e => updateScored e.1 e.2 acc) acc := by
  intro items
  induction items with
  | nil => intro acc; rfl
  | cons it rest ih =>
    intro acc
    by_cases h : 0 < scoreOf q ws it <;>
      simp [List.foldl_cons, List.map_cons, List.filter_cons, scoreStep, h, ih]

/-- **C2**: for every query, the reference-dataset search is exactly the
spec's pipeline: score each item (+10 exact id match, +3 query-substring
match, +1 per word-substring match), exclude zero scores, collapse
duplicate `item_id`s to the highest-scoring instance, sort by (score
descending, name ascending), return at most the top 5, and strip the
internal fields. -/
theorem search_ikea_matches_spec (items : List IkeaItem) (query : String) :
    searchIkeaItems items query 5 = searchIkeaItemsSpec items query := by
  simp only [searchIkeaItems, searchIkeaItemsSpec]
  rw [foldl_scoreStep_eq]
  by_cases hitems : items = []
  · subst hitems
    simp
  · rw [if_neg hitems]
    by_cases hq : queryNorm query = ""
    · rw [if_pos hq, if_pos hq]
    · rw [if_neg hq, if_neg hq]
      by_cases hs :
          ((items.map (fun it =>
              (scoreOf (queryNorm query) (queryWords (queryNorm query)) it, it))).filter
            (fun e => 0 < e.1)).foldl (fun acc e => updateScored e.1 e.2 acc) [] = []
      · rw [if_pos hs, hs]
        simp [List.insertionSort]
      · rw [if_neg hs]

/-! ### Properties of the duplicate-id collapse -/

/-- Entries produced by `updateScored` are old entries or the new pair. -/
theorem updateScored_mem {s : Nat} {it : IkeaItem} :
    ∀ {acc : List (Nat × IkeaItem)} {e : Nat × IkeaItem},
      e ∈ updateScored s it acc → e ∈ acc ∨ e = (s, it) := by
  intro acc
  induction acc with
  | nil =>
    intro e he
    right
    simpa [updateScored] using he
  | cons e0 rest ih =>
    intro e he
    unfold updateScored at he
    by_cases hk : e0.2.item_id = it.item_id
    · rw [if_pos hk] at he
      by_cases hlt : e0.1 < s
      · rw [if_pos hlt] at he
        rcases List.mem_cons.mp he with h | h
        · right; exact h
        · left; exact List.mem_cons_of_mem _ h
      · rw [if_neg hlt] at he
        left; exact he
    · rw [if_neg hk] at he
      rcases List.mem_cons.mp he with h | h
      · left
        rw [h]
        exact List.mem_cons_self _ _
      · rcases ih h with h2 | h2
        · left; exact List.mem_cons_of_mem _ h2
        · right; exact h2

/-- Entries whose key differs from the updated key are untouched. -/
theorem updateScored_mem_of_ne {s : Nat} {it : IkeaItem} :
    ∀ {acc : List (Nat × IkeaItem)} {e : Nat × IkeaItem},
      e ∈ acc → e.2.item_id ≠ it.item_id → e ∈ updateScored s it acc := by
  intro acc
  induction acc with
  | nil => intro e he _; cases he
  | cons e0 rest ih =>
    intro e he hne
    unfold updateScored
    rcases List.mem_cons.mp he with h | h
    · by_cases hk : e0.2.item_id = it.item_id
      · exact absurd (h ▸ hk) hne
      · rw [if_neg hk]
        rw [h]
        exact List.mem_cons_self _ _
    · by_cases hk : e0.2.item_id = it.item_id
      · rw [if_pos hk]
        by_cases hlt : e0.1 < s
        · rw [if_pos hlt]; exact List.mem_cons_of_mem _ h
        · rw [if_neg hlt]; exact List.mem_cons_of_mem _ h
      · rw [if_neg hk]
        exact List.mem_cons_of_mem _ (ih h hne)

/-- After an update, some entry carries the updated key with at least the
new score. -/
theorem updateScored_exists (s : Nat) (it : IkeaItem) :
    ∀ acc, ∃ e ∈ updateScored s it acc, e.2.item_id = it.item_id ∧ s ≤ e.1 := by
  intro acc
  induction acc with
  | nil => exact ⟨(s, it), by simp [updateScored]⟩
  | cons e0 rest ih =>
    unfold updateScored
    by_cases hk : e0.2.item_id = it.item_id
    · rw [if_pos hk]
      by_cases hlt : e0.1 < s
      · rw [if_pos hlt]
        exact ⟨(s, it), List.mem_cons_self _ _, rfl, le_refl s⟩
      · rw [if_neg hlt]
        exact ⟨e0, List.mem_cons_self _ _, hk, by omega⟩
    · rw [if_neg hk]
      obtain ⟨e, he, hek, hes⟩ := ih
      exact ⟨e, List.mem_cons_of_mem _ he, hek, hes⟩

/-- The collapse dictionary never holds two entries with the same key. -/
def uniqKeys (acc : List (Nat × IkeaItem)) : Prop :=
  acc.Pairwise (fun e1 e2 => e1.2.item_id ≠ e2.2.item_id)

theorem updateScored_uniqKeys {s : Nat} {it : IkeaItem} :
    ∀ {acc : List (Nat × IkeaItem)}, uniqKeys acc → uniqKeys (updateScored s it acc) := by
  intro acc
  induction acc with
  | nil =>
    intro _
    simp [updateScored, uniqKeys]
  | cons e0 rest ih =>
    intro hu
    have hu0 := (List.pairwise_cons.mp hu).1
    have hur : uniqKeys rest := (List.pairwise_cons.mp hu).2
    unfold updateScored
    by_cases hk : e0.2.item_id = it.item_id
    · rw [if_pos hk]
      by_cases hlt : e0.1 < s
      · rw [if_pos hlt]
        refine List.pairwise_cons.mpr ⟨?_, hur⟩
        intro e he
        exact hk ▸ hu0 e he
      · rw [if_neg hlt]
        exact hu
    · rw [if_neg hk]
      refine List.pairwise_cons.mpr ⟨?_, ih hur⟩
      intro e he
      rcases updateScored_mem he with h | h
      · exact hu0 e h
      · rw [h]
        exact hk


/-- If the dictionary already holds the key with a score at least `s`, the
update is a no-op (ties keep the earlier row). -/
theorem updateScored_noop {s : Nat} {it : IkeaItem} :
    ∀ {acc : List (Nat × IkeaItem)}, uniqKeys acc →
      (∃ e ∈ acc, e.2.item_id = it.item_id ∧ s ≤ e.1) →
      updateScored s it acc = acc := by
  intro acc
  induction acc with
  | nil => intro _ h; obtain ⟨e, he, _⟩ := h; cases he
  | cons e0 rest ih =>
    intro hu h
    obtain ⟨e, he, hek, hes⟩ := h
    have hu0 := (List.pairwise_cons.mp hu).1
    have hur : uniqKeys rest := (List.pairwise_cons.mp hu).2
    unfold updateScored
    by_cases hk : e0.2.item_id = it.item_id
    · rw [if_pos hk]
      have he0 : e = e0 := by
        rcases List.mem_cons.mp he with h1 | h1
        · exact h1
        · exact absurd (hk.trans hek.symm) (hu0 e h1)
      have hse0 : s ≤ e0.1 := he0 ▸ hes
      rw [if_neg (by omega : ¬ e0.1 < s)]
    · rw [if_neg hk]
      have he' : e ∈ rest := by
        rcases List.mem_cons.mp he with h1 | h1
        · exact absurd (h1 ▸ hek) hk
        · exact h1
      rw [ih hur ⟨e, he', hek, hes⟩]

/-- An update can only raise the score recorded for a key. -/
theorem updateScored_key_ge {s m : Nat} {it : IkeaItem} :
    ∀ {acc : List (Nat × IkeaItem)}, uniqKeys acc →
      (∃ e ∈ acc, e.2.item_id = it.item_id ∧ m ≤ e.1) →
      ∃ e ∈ updateScored s it acc, e.2.item_id = it.item_id ∧ m ≤ e.1 := by
  intro acc
  induction acc with
  | nil => intro _ h; obtain ⟨e, he, _⟩ := h; cases he
  | cons e0 rest ih =>
    intro hu h
    obtain ⟨e, he, hek, hes⟩ := h
    have hu0 := (List.pairwise_cons.mp hu).1
    have hur : uniqKeys rest := (List.pairwise_cons.mp hu).2
    unfold updateScored
    by_cases hk : e0.2.item_id = it.item_id
    · rw [if_pos hk]
      have he0 : e = e0 := by
        rcases List.mem_cons.mp he with h1 | h1
        · exact h1
        · exact absurd (hk.trans hek.symm) (hu0 e h1)
      by_cases hlt : e0.1 < s
      · rw [if_pos hlt]
        refine ⟨(s, it), List.mem_cons_self _ _, rfl, ?_⟩
        have : m ≤ e0.1 := he0 ▸ hes
        omega
      · rw [if_neg hlt]
        exact ⟨e0, List.mem_cons_self _ _, hk, he0 ▸ hes⟩
    · rw [if_neg hk]
      have he' : e ∈ rest := by
        rcases List.mem_cons.mp he with h1 | h1
        · exact absurd (h1 ▸ hek) hk
        · exact h1
      obtain ⟨e2, he2, he2k, he2s⟩ := ih hur ⟨e, he', hek, hes⟩
      exact ⟨e2, List.mem_cons_of_mem _ he2, he2k, he2s⟩

theorem scoreStep_uniqKeys (q : String) (ws : List String) (it : IkeaItem)
    {acc : List (Nat × IkeaItem)} (h : uniqKeys acc) :
    uniqKeys (scoreStep q ws acc it) := by
  unfold scoreStep
  by_cases hp : 0 < scoreOf q ws it
  · rw [if_pos hp]
    exact updateScored_uniqKeys h
  · rw [if_neg hp]
    exact h

theorem scoreStep_key_ge (q : String) (ws : List String) (row : IkeaItem)
    {acc : List (Nat × IkeaItem)} {k : String} {m : Nat} (hu : uniqKeys acc)
    (h : ∃ e ∈ acc, e.2.item_id = k ∧ m ≤ e.1) :
    ∃ e ∈ scoreStep q ws acc row, e.2.item_id = k ∧ m ≤ e.1 := by
  unfold scoreStep
  by_cases hp : 0 < scoreOf q ws row
  · rw [if_pos hp]
    by_cases hk : row.item_id = k
    · subst hk
      exact updateScored_key_ge hu h
    · obtain ⟨e, he, hek, hes⟩ := h
      refine ⟨e, updateScored_mem_of_ne he ?_, hek, hes⟩
      rw [hek]
      exact fun hc => hk hc.symm
  · rw [if_neg hp]
    exact h

theorem foldl_scoreStep_uniqKeys (q : String) (ws : List String) :
    ∀ (items : List IkeaItem) (acc : List (Nat × IkeaItem)), uniqKeys acc →
      uniqKeys (items.foldl (scoreStep q ws) acc) := by
  intro items
  induction items with
  | nil => intro acc h; exact h
  | cons it rest ih =>
    intro acc h
    rw [List.foldl_cons]
    exact ih _ (scoreStep_uniqKeys q ws it h)

theorem foldl_scoreStep_key_ge (q : String) (ws : List String) (k : String) (m : Nat) :
    ∀ (items : List IkeaItem) (acc : List (Nat × IkeaItem)), uniqKeys acc →
      (∃ e ∈ acc, e.2.item_id = k ∧ m ≤ e.1) →
      ∃ e ∈ items.foldl (scoreStep q ws) acc, e.2.item_id = k ∧ m ≤ e.1 := by
  intro items
  induction items with
  | nil => intro acc _ h; exact h
  | cons it rest ih =>
    intro acc hu h
    rw [List.foldl_cons]
    exact ih _ (scoreStep_uniqKeys q ws it hu) (scoreStep_key_ge q ws it hu h)

/-- Every entry the scoring fold produces comes from the initial dictionary
or records some row together with its own positive score. -/
theorem foldl_scoreStep_entries (q : String) (ws : List String) :
    ∀ (items : List IkeaItem) (acc : List (Nat × IkeaItem)),
      ∀ e ∈ items.foldl (scoreStep q ws) acc,
        e ∈ acc ∨ (e.2 ∈ items ∧ e.1 = scoreOf q ws e.2 ∧ 0 < e.1) := by
  intro items
  induction items with
  | nil => intro acc e he; left; exact he
  | cons it rest ih =>
    intro acc e he
    rw [List.foldl_cons] at he
    rcases ih _ e he with h | ⟨h1, h2, h3⟩
    · unfold scoreStep at h
      by_cases hp : 0 < scoreOf q ws it
      · rw [if_pos hp] at h
        rcases updateScored_mem h with h2 | h2
        · left; exact h2
        · right
          refine ⟨?_, ?_, ?_⟩
          · rw [h2]; exact List.mem_cons_self _ _
          · rw [h2]
          · rw [h2]; exact hp
      · rw [if_neg hp] at h
        left; exact h
    · right
      exact ⟨List.mem_cons_of_mem _ h1, h2, h3⟩

/-- Dropping a later duplicate-id row that does not beat an earlier one
leaves the collapse fold unchanged. -/
theorem foldl_scoreStep_skip_dup (q : String) (ws : List String)
    (pre mid post : List IkeaItem) (it1 it2 : IkeaItem)
    (hk : it1.item_id = it2.item_id)
    (hs : scoreOf q ws it2 ≤ scoreOf q ws it1) :
    (pre ++ it1 :: (mid ++ it2 :: post)).foldl (scoreStep q ws) [] =
      (pre ++ it1 :: (mid ++ post)).foldl (scoreStep q ws) [] := by
  rw [List.foldl_append, List.foldl_append, List.foldl_cons, List.foldl_cons,
    List.foldl_append, List.foldl_append, List.foldl_cons]
  have hu0 : uniqKeys (pre.foldl (scoreStep q ws) []) :=
    foldl_scoreStep_uniqKeys q ws pre [] (by simp [uniqKeys])
  have hu1 : uniqKeys (scoreStep q ws (pre.foldl (scoreStep q ws) []) it1) :=
    scoreStep_uniqKeys q ws it1 hu0
  have huM : uniqKeys
      (mid.foldl (scoreStep q ws) (scoreStep q ws (pre.foldl (scoreStep q ws) []) it1)) :=
    foldl_scoreStep_uniqKeys q ws mid _ hu1
  have hstep : scoreStep q ws
      (mid.foldl (scoreStep q ws) (scoreStep q ws (pre.foldl (scoreStep q ws) []) it1)) it2 =
      mid.foldl (scoreStep q ws) (scoreStep q ws (pre.foldl (scoreStep q ws) []) it1) := by
    by_cases hp2 : 0 < scoreOf q ws it2
    · have hp1 : 0 < scoreOf q ws it1 := by omega
      have hex1 : ∃ e ∈ scoreStep q ws (pre.foldl (scoreStep q ws) []) it1,
          e.2.item_id = it2.item_id ∧ scoreOf q ws it2 ≤ e.1 := by
        unfold scoreStep
        rw [if_pos hp1]
        obtain ⟨e, he, hek, hes⟩ :=
          updateScored_exists (scoreOf q ws it1) it1 (pre.foldl (scoreStep q ws) [])
        exact ⟨e, he, hek.trans hk, le_trans hs hes⟩
      have hexM := foldl_scoreStep_key_ge q ws it2.item_id (scoreOf q ws it2) mid _ hu1 hex1
      unfold scoreStep
      rw [if_pos hp2]
      exact updateScored_noop huM hexM
    · unfold scoreStep
      rw [if_neg hp2]
  rw [hstep]

/-- **C10**: when duplicate `item_id` rows score equally, the collapse keeps
the first-encountered row (dropping the later duplicate changes nothing),
and an update replaces the stored entry only when its score is strictly
greater. -/
theorem search_ikea_duplicate_ties_keep_first
    (pre mid post : List IkeaItem) (it1 it2 : IkeaItem) (query : String)
    (hk : it1.item_id = it2.item_id)
    (hs : scoreOf (queryNorm query) (queryWords (queryNorm query)) it2 =
      scoreOf (queryNorm query) (queryWords (queryNorm query)) it1) :
    (∀ (s1 s2 : Nat) (b1 b2 : IkeaItem), b1.item_id = b2.item_id →
      updateScored s2 b2 [(s1, b1)] = if s1 < s2 then [(s2, b2)] else [(s1, b1)]) ∧
    searchIkeaItems (pre ++ it1 :: (mid ++ it2 :: post)) query 5 =
      searchIkeaItems (pre ++ it1 :: (mid ++ post)) query 5 := by
  constructor
  · intro s1 s2 b1 b2 hb
    by_cases hlt : s1 < s2
    · simp [updateScored, hb, hlt]
    · simp [updateScored, hb, hlt]
  · have hne1 : pre ++ it1 :: (mid ++ it2 :: post) ≠ [] := by simp
    have hne2 : pre ++ it1 :: (mid ++ post) ≠ [] := by simp
    simp only [searchIkeaItems]
    rw [if_neg hne1, if_neg hne2]
    by_cases hq : queryNorm query = ""
    · rw [if_pos hq, if_pos hq]
    · rw [if_neg hq, if_neg hq,
        foldl_scoreStep_skip_dup (queryNorm query) (queryWords (queryNorm query))
          pre mid post it1 it2 hk (le_of_eq hs)]

/-- Concrete reference rows used by witnesses. -/
def witItA : IkeaItem := ⟨"111", "Alpha chair", "chairs", "111 alpha chair chairs"⟩

/-- A second concrete reference row used by witnesses. -/
def witItB : IkeaItem := ⟨"222", "Beta table", "tables", "222 beta table tables"⟩

/-- Witness for `search_ikea_duplicate_ties_keep_first`: a duplicated row
scores equally with itself, and removing the later copy leaves the search
result unchanged. -/
theorem search_ikea_duplicate_ties_keep_first_witness :
    witItA.item_id = witItA.item_id ∧
    scoreOf (queryNorm "alpha") (queryWords (queryNorm "alpha")) witItA =
      scoreOf (queryNorm "alpha") (queryWords (queryNorm "alpha")) witItA ∧
    ((∀ (s1 s2 : Nat) (b1 b2 : IkeaItem), b1.item_id = b2.item_id →
      updateScored s2 b2 [(s1, b1)] = if s1 < s2 then [(s2, b2)] else [(s1, b1)]) ∧
    searchIkeaItems ([] ++ witItA :: ([witItB] ++ witItA :: [])) "alpha" 5 =
      searchIkeaItems ([] ++ witItA :: ([witItB] ++ [])) "alpha" 5) :=
  ⟨rfl, rfl,
    search_ikea_duplicate_ties_keep_first [] [witItB] [] witItA witItA "alpha" rfl rfl⟩

/-! ### Ranking of exact-id matches -/

/-- Tokens produced by the tokenizer are never empty. -/
theorem splitWordsAux_ne_nil :
    ∀ (cs acc : List Char), ∀ w ∈ splitWordsAux cs acc, w ≠ [] := by
  intro cs
  induction cs with
  | nil =>
    intro acc w hw
    unfold splitWordsAux at hw
    by_cases h : acc = []
    · simp [h] at hw
    · simp [h] at hw
      subst hw
      simpa using h
  | cons c cs ih =>
    intro acc w hw
    unfold splitWordsAux at hw
    by_cases hword : isWordChar c
    · simp only [hword, if_true] at hw
      exact ih (c :: acc) w hw
    · simp only [hword, Bool.false_eq_true, if_false] at hw
      by_cases hacc : acc = []
      · simp only [hacc, if_true] at hw
        exact ih [] w hw
      · simp only [hacc, if_false] at hw
        rcases List.mem_cons.mp hw with h | h
        · subst h
          simpa using hacc
        · exact ih [] w h

/-- Words produced by `splitWords` are never empty. -/
theorem splitWords_ne_nil (l : List Char) : ∀ w ∈ splitWords l, w ≠ [] := by
  intro w hw
  exact splitWordsAux_ne_nil l [] w hw

/-- Every query word is non-empty and a substring of the query. -/
theorem queryWords_sound (q : String) :
    ∀ w ∈ queryWords q, w ≠ "" ∧ w.data <:+: q.data := by
  intro w hw
  unfold queryWords at hw
  obtain ⟨tok, htok, hmk⟩ := List.mem_map.mp hw
  subst hmk
  constructor
  · intro hc
    exact splitWords_ne_nil q.data tok htok (congrArg String.data hc)
  · exact splitWords_infix q.data tok htok

/-- A row whose lowercased id is the whole query scores exactly
`10 + 3 + (number of query words)`, provided its searchable text contains
the query. -/
theorem scoreOf_of_id_match (q : String) (ws : List String) (it : IkeaItem)
    (hq : q = lowerStr it.item_id)
    (hinf : q.data <:+: it.srch.data)
    (hws : ∀ w ∈ ws, w ≠ "" ∧ w.data <:+: q.data) :
    scoreOf q ws it = 13 + ws.length := by
  unfold scoreOf
  rw [if_pos hq, if_pos hinf]
  have hfil : ws.filter (fun w => decide (w ≠ "" ∧ w.data <:+: it.srch.data)) = ws := by
    apply List.filter_eq_self.mpr
    intro w hw
    obtain ⟨h1, h2⟩ := hws w hw
    exact decide_eq_true ⟨h1, h2.trans hinf⟩
  rw [hfil]

/-- A row whose lowercased id is not the query scores at most
`3 + (number of query words)`. -/
theorem scoreOf_le_of_not_id (q : String) (ws : List String) (it : IkeaItem)
    (h : q ≠ lowerStr it.item_id) :
    scoreOf q ws it ≤ 3 + ws.length := by
  unfold scoreOf
  rw [if_neg h]
  have := List.length_filter_le (fun w => decide (w ≠ "" ∧ w.data <:+: it.srch.data)) ws
  split_ifs <;> omega

/-- Loader invariants from `_load_ikea_catalog` (src/tools.py lines 54-113)
used by the ranking claim: `item_id` is stripped at load (line 55) and rows
with an empty id are dropped (line 57), and the `_search` text starts with
the lowercased `item_id` (lines 75-87), hence contains it. -/
def wfItem (it : IkeaItem) : Prop :=
  it.item_id ≠ "" ∧ stripStr it.item_id = it.item_id ∧
    (lowerStr it.item_id).data <:+: it.srch.data

instance (it : IkeaItem) : Decidable (wfItem it) := by
  unfold wfItem
  infer_instance

/-- `rankLE a b` forces the score of `b` to be at most that of `a`. -/
theorem rankLE_fst_le {a b : Nat × IkeaItem} (h : rankLE a b) : b.1 <= a.1 := by
  unfold rankLE at h
  rcases h with h | ⟨h, _⟩ <;> omega

/-- In the sorted-and-truncated score list, any entry with a strictly
higher score than the one at index `j` already appears at an earlier
index. -/
theorem insertionSort_take_find_dominator
    (scored : List (Nat × IkeaItem)) (estar : Nat × IkeaItem) (hmem : estar ∈ scored)
    (limit j : ℕ)
    (hj : j < ((List.insertionSort rankLE scored).take limit).length)
    (hlt : (((List.insertionSort rankLE scored).take limit).get ⟨j, hj⟩).1 < estar.1) :
    ∃ i, ∃ hi : i < ((List.insertionSort rankLE scored).take limit).length, i < j ∧
      ((List.insertionSort rankLE scored).take limit).get ⟨i, hi⟩ = estar := by
  have hsorted : List.Sorted rankLE (List.insertionSort rankLE scored) :=
    List.sorted_insertionSort rankLE scored
  have hperm := List.perm_insertionSort rankLE scored
  have hmem' : estar ∈ List.insertionSort rankLE scored := hperm.mem_iff.mpr hmem
  obtain ⟨iF, hiF⟩ := List.mem_iff_get.mp hmem'
  have hlen : ((List.insertionSort rankLE scored).take limit).length =
      min limit (List.insertionSort rankLE scored).length := List.length_take _ _
  have hjlen : j < (List.insertionSort rankLE scored).length := by
    have hj' := hj
    rw [hlen] at hj'
    exact lt_of_lt_of_le hj' (min_le_right _ _)
  have hget_take : ((List.insertionSort rankLE scored).take limit).get ⟨j, hj⟩ =
      (List.insertionSort rankLE scored).get ⟨j, hjlen⟩ := by
    rw [List.get_eq_getElem, List.get_eq_getElem, List.getElem_take]
  have hij : iF.val < j := by
    rcases Nat.lt_trichotomy iF.val j with h | h | h
    · exact h
    · exfalso
      have heq : (⟨j, hjlen⟩ : Fin (List.insertionSort rankLE scored).length) = iF :=
        Fin.ext h.symm
      rw [hget_take, heq, hiF] at hlt
      omega
    · exfalso
      have hrel := List.Sorted.rel_get_of_lt hsorted
        (a := ⟨j, hjlen⟩) (b := iF) h
      rw [hiF] at hrel
      rw [hget_take] at hlt
      have h2 := rankLE_fst_le hrel
      omega
  have hilen : iF.val < ((List.insertionSort rankLE scored).take limit).length := by
    rw [hlen]
    rw [hlen] at hj
    omega
  refine ⟨iF.val, hilen, hij, ?_⟩
  rw [List.get_eq_getElem, List.getElem_take, ← hiF]
  rw [List.get_eq_getElem]

/-- In the public output of the sort-take-strip pipeline, a dominating
entry (one scoring strictly above every entry whose lowercased id is not
the query) appears at or before any such entry. -/
theorem sorted_output_rank (scored : List (Nat × IkeaItem)) (estar : Nat × IkeaItem)
    (qn : String) (limit : Nat)
    (hmem : estar ∈ scored)
    (hdom : ∀ e ∈ scored, lowerStr e.2.item_id ≠ qn → e.1 < estar.1) :
    ∀ j b,
      (((List.insertionSort rankLE scored).take limit).map
          (fun e => copyPublicItem e.2)).get? j = some b →
      lowerStr b.item_id ≠ qn →
      ∃ i, i ≤ j ∧ ∃ a,
        (((List.insertionSort rankLE scored).take limit).map
            (fun e => copyPublicItem e.2)).get? i = some a ∧
        a.item_id = estar.2.item_id := by
  intro j b hb hbne
  obtain ⟨hjm, hbget⟩ := List.get?_eq_some.mp hb
  have hjt : j < ((List.insertionSort rankLE scored).take limit).length := by
    simpa using hjm
  have hbval : copyPublicItem (((List.insertionSort rankLE scored).take limit).get
      ⟨j, hjt⟩).2 = b := by
    rw [← hbget, List.get_eq_getElem, List.get_eq_getElem, List.getElem_map]
  have hbj_mem : ((List.insertionSort rankLE scored).take limit).get ⟨j, hjt⟩ ∈ scored := by
    have h1 : ((List.insertionSort rankLE scored).take limit).get ⟨j, hjt⟩ ∈
        (List.insertionSort rankLE scored).take limit := List.get_mem _ _ _
    have h2 := List.take_subset limit (List.insertionSort rankLE scored) h1
    exact (List.perm_insertionSort rankLE scored).mem_iff.mp h2
  have hlow : lowerStr (((List.insertionSort rankLE scored).take limit).get
      ⟨j, hjt⟩).2.item_id ≠ qn := by
    intro hc
    apply hbne
    rw [← hbval]
    exact hc
  have hlt := hdom _ hbj_mem hlow
  obtain ⟨i, hi, hij, hieq⟩ :=
    insertionSort_take_find_dominator scored estar hmem limit j hjt hlt
  refine ⟨i, le_of_lt hij, copyPublicItem estar.2, ?_, rfl⟩
  apply List.get?_eq_some.mpr
  refine ⟨by simpa using hi, ?_⟩
  rw [List.get_eq_getElem, List.getElem_map]
  rw [List.get_eq_getElem] at hieq
  rw [List.getElem_take] at hieq ⊢
  rw [hieq]

/-- **C6**: searching a well-formed reference item's exact `item_id` gives
that item a score of at least 10, items matched only by the substring or
per-word checks never score higher from the same query's words, and in the
returned ordering the exact-id item ranks at or above every such
purely-substring-matched item. -/
theorem search_ikea_exact_id_ranks_first
    (items : List IkeaItem) (it : IkeaItem)
    (hwf : ∀ b ∈ items, wfItem b) (hmem : it ∈ items) :
    10 ≤ scoreOf (queryNorm it.item_id) (queryWords (queryNorm it.item_id)) it ∧
    (∀ b ∈ items, lowerStr b.item_id ≠ queryNorm it.item_id →
      scoreOf (queryNorm it.item_id) (queryWords (queryNorm it.item_id)) b ≤
        scoreOf (queryNorm it.item_id) (queryWords (queryNorm it.item_id)) it) ∧
    (∀ j b, (searchIkeaItems items it.item_id 5).get? j = some b →
      lowerStr b.item_id ≠ queryNorm it.item_id →
      ∃ i, i ≤ j ∧ ∃ a, (searchIkeaItems items it.item_id 5).get? i = some a ∧
        a.item_id = it.item_id) := by
  obtain ⟨hne, hstrip, hinf⟩ := hwf it hmem
  have hq_id : queryNorm it.item_id = lowerStr it.item_id := by
    unfold queryNorm
    rw [hstrip]
  have hscore_it : scoreOf (queryNorm it.item_id) (queryWords (queryNorm it.item_id)) it =
      13 + (queryWords (queryNorm it.item_id)).length := by
    apply scoreOf_of_id_match _ _ _ hq_id
    · rw [hq_id]
      exact hinf
    · exact queryWords_sound _
  refine ⟨by rw [hscore_it]; omega, ?_, ?_⟩
  · intro b hb hbne
    have h1 := scoreOf_le_of_not_id (queryNorm it.item_id)
      (queryWords (queryNorm it.item_id)) b (fun hc => hbne hc.symm)
    rw [hscore_it]
    omega
  · have hitems_ne : items ≠ [] := List.ne_nil_of_mem hmem
    have hq_ne : queryNorm it.item_id ≠ "" := by
      rw [hq_id]
      intro hc
      exact hne ((lowerStr_eq_empty_iff _).mp hc)
    obtain ⟨l1, l2, hsplit⟩ := List.append_of_mem hmem
    have hu0 : uniqKeys (l1.foldl
        (scoreStep (queryNorm it.item_id) (queryWords (queryNorm it.item_id))) []) :=
      foldl_scoreStep_uniqKeys _ _ l1 [] (by simp [uniqKeys])
    have hpos_it :
        0 < scoreOf (queryNorm it.item_id) (queryWords (queryNorm it.item_id)) it := by
      rw [hscore_it]
      omega
    have hex1 : ∃ e ∈ scoreStep (queryNorm it.item_id) (queryWords (queryNorm it.item_id))
        (l1.foldl (scoreStep (queryNorm it.item_id) (queryWords (queryNorm it.item_id))) [])
        it,
        e.2.item_id = it.item_id ∧
          13 + (queryWords (queryNorm it.item_id)).length ≤ e.1 := by
      unfold scoreStep
      rw [if_pos hpos_it]
      obtain ⟨e, he, hek, hes⟩ := updateScored_exists _ it _
      exact ⟨e, he, hek, hscore_it ▸ hes⟩
    have hexS : ∃ e ∈ items.foldl
        (scoreStep (queryNorm it.item_id) (queryWords (queryNorm it.item_id))) [],
        e.2.item_id = it.item_id ∧
          13 + (queryWords (queryNorm it.item_id)).length ≤ e.1 := by
      rw [hsplit, List.foldl_append, List.foldl_cons]
      exact foldl_scoreStep_key_ge _ _ it.item_id _ l2 _
        (scoreStep_uniqKeys _ _ it hu0) hex1
    obtain ⟨estar, hestar_mem, hestar_key, hestar_ge⟩ := hexS
    have hscored_ne : items.foldl
        (scoreStep (queryNorm it.item_id) (queryWords (queryNorm it.item_id))) [] ≠ [] :=
      List.ne_nil_of_mem hestar_mem
    have hout : searchIkeaItems items it.item_id 5 =
        ((List.insertionSort rankLE (items.foldl
            (scoreStep (queryNorm it.item_id) (queryWords (queryNorm it.item_id))) [])).take
          5).map (fun e => copyPublicItem e.2) := by
      simp only [searchIkeaItems]
      rw [if_neg hitems_ne, if_neg hq_ne, if_neg hscored_ne]
    have hdom : ∀ e ∈ items.foldl
        (scoreStep (queryNorm it.item_id) (queryWords (queryNorm it.item_id))) [],
        lowerStr e.2.item_id ≠ queryNorm it.item_id → e.1 < estar.1 := by
      intro e he hene
      rcases foldl_scoreStep_entries _ _ items [] e he with hc | ⟨_, hsc, _⟩
      · cases hc
      have hb2 := scoreOf_le_of_not_id (queryNorm it.item_id)
        (queryWords (queryNorm it.item_id)) e.2 (fun hc => hene hc.symm)
      omega
    intro j b hb hbne
    rw [hout] at hb
    obtain ⟨i, hij, a, ha, hid⟩ :=
      sorted_output_rank _ estar (queryNorm it.item_id) 5 hestar_mem hdom j b hb hbne
    refine ⟨i, hij, a, ?_, ?_⟩
    · rw [hout]
      exact ha
    · rw [hid, hestar_key]

/-- Witness for `search_ikea_exact_id_ranks_first` on a two-row dataset. -/
theorem search_ikea_exact_id_ranks_first_witness :
    (∀ b ∈ [witItA, witItB], wfItem b) ∧ witItA ∈ [witItA, witItB] ∧
    (10 ≤ scoreOf (queryNorm witItA.item_id) (queryWords (queryNorm witItA.item_id)) witItA ∧
    (∀ b ∈ [witItA, witItB], lowerStr b.item_id ≠ queryNorm witItA.item_id →
      scoreOf (queryNorm witItA.item_id) (queryWords (queryNorm witItA.item_id)) b ≤
        scoreOf (queryNorm witItA.item_id) (queryWords (queryNorm witItA.item_id)) witItA) ∧
    (∀ j b, (searchIkeaItems [witItA, witItB] witItA.item_id 5).get? j = some b →
      lowerStr b.item_id ≠ queryNorm witItA.item_id →
      ∃ i, i ≤ j ∧ ∃ a,
        (searchIkeaItems [witItA, witItB] witItA.item_id 5).get? i = some a ∧
        a.item_id = witItA.item_id)) :=
  ⟨by decide, by decide,
    search_ikea_exact_id_ranks_first [witItA, witItB] witItA (by decide) (by decide)⟩

/-! ## Product lookup (`lookup_product` in src/tools.py) -/

/-- One curated catalog item (`catalog.json`): the fields `lookup_product`
reads; any further descriptive fields are inert for the claims. -/
structure CatalogItem where
  sku : String
  name : String
  category : String
  color_options : List String
deriving DecidableEq

/-- The result dictionary built by `lookup_product`.  A `none` field models
an absent key; `len(result) == 2` (only `ok` and `query` present)
corresponds to all four channel fields being `none`. -/
structure LookupResult where
  ok : Bool
  msg : Option String
  query : Option String
  catalog_match : Option CatalogItem
  catalog_results : Option (List CatalogItem)
  catalog_category : Option (List CatalogItem)
  ikea_results : Option (List PubIkeaItem)
deriving DecidableEq

/-- `next((item for item in CATALOG if item.get("sku","").lower() == q_lower), None)`. -/
def skuMatchOf (catalog : List CatalogItem) (qLower : String) : Option CatalogItem :=
  catalog.find? (fun item => lowerStr item.sku = qLower)

/-- Case-insensitive substring hits on `name` or any `color_options` entry
(src/tools.py lines 201-206). -/
def nameHitsOf (catalog : List CatalogItem) (qLower : String) : List CatalogItem :=
  catalog.filter (fun item =>
    decide (qLower.data <:+: (lowerStr item.name).data) ||
      item.color_options.any (fun opt => decide (qLower.data <:+: (lowerStr opt).data)))

/-- Exact case-insensitive `category` hits (src/tools.py line 210). -/
def categoryHitsOf (catalog : List CatalogItem) (qLower : String) : List CatalogItem :=
  catalog.filter (fun item => lowerStr item.category = qLower)

/-- The successful result dictionary as built on src/tools.py lines
195-216: `catalog_match` iff a SKU match exists, `catalog_results` only
when there are name hits and no SKU match, `catalog_category` and
`ikea_results` when non-empty. -/
def lookupBuild (q : String) (skuMatch : Option CatalogItem)
    (nameHits categoryHits : List CatalogItem) (ikeaHits : List PubIkeaItem) :
    LookupResult :=
  { ok := true
    msg := none
    query := some q
    catalog_match := skuMatch
    catalog_results := if nameHits ≠ [] ∧ skuMatch = none then some nameHits else none
    catalog_category := if categoryHits ≠ [] then some categoryHits else none
    ikea_results := if ikeaHits ≠ [] then some ikeaHits else none }

/-- `len(result) == 2`: no channel key was added. -/
def noChannels (r : LookupResult) : Prop :=
  r.catalog_match = none ∧ r.catalog_results = none ∧
    r.catalog_category = none ∧ r.ikea_results = none

instance (r : LookupResult) : Decidable (noChannels r) := by
  unfold noChannels
  infer_instance

/-- `lookup_product(query)` (src/tools.py lines 190-220). -/
def lookup_product (catalog : List CatalogItem) (ikea : List IkeaItem) (query : String) :
    LookupResult :=
  if stripStr query = "" then
    ⟨false, some "Please provide a product keyword, SKU, or IKEA item ID.",
      none, none, none, none, none⟩
  else if noChannels (lookupBuild (stripStr query)
      (skuMatchOf catalog (lowerStr (stripStr query)))
      (nameHitsOf catalog (lowerStr (stripStr query)))
      (categoryHitsOf catalog (lowerStr (stripStr query)))
      (searchIkeaItems ikea (lowerStr (stripStr query)) 5)) then
    ⟨false, some ("No products found for \x27" ++ stripStr query ++ "\x27."),
      none, none, none, none, none⟩
  else
    lookupBuild (stripStr query)
      (skuMatchOf catalog (lowerStr (stripStr query)))
      (nameHitsOf catalog (lowerStr (stripStr query)))
      (categoryHitsOf catalog (lowerStr (stripStr query)))
      (searchIkeaItems ikea (lowerStr (stripStr query)) 5)

/-- The built dictionary has no channel keys iff all four channels came up
empty. -/
theorem noChannels_build_iff (q : String) (sku : Option CatalogItem)
    (nameHits catHits : List CatalogItem) (ikeaHits : List PubIkeaItem) :
    noChannels (lookupBuild q sku nameHits catHits ikeaHits) ↔
      (sku = none ∧ nameHits = [] ∧ catHits = [] ∧ ikeaHits = []) := by
  unfold noChannels lookupBuild
  split_ifs <;> simp_all
  tauto

/-- **C8**: looking up a curated item's exact SKU in any letter casing
returns that item as the single best match (`catalog_match`), and the
name/color results list is omitted entirely whenever an exact SKU match
exists, so the best match is never duplicated there. -/
theorem lookup_product_exact_sku
    (catalog : List CatalogItem) (ikea : List IkeaItem) (c : CatalogItem) (query : String)
    (hmem : c ∈ catalog)
    (huniq : ∀ a ∈ catalog, ∀ b ∈ catalog, lowerStr a.sku = lowerStr b.sku → a = b)
    (hsku : c.sku ≠ "")
    (hq : lowerStr (stripStr query) = lowerStr c.sku) :
    (lookup_product catalog ikea query).ok = true ∧
    (lookup_product catalog ikea query).catalog_match = some c ∧
    (lookup_product catalog ikea query).catalog_results = none := by
  have hqne : stripStr query ≠ "" := by
    intro hc
    have hempty : lowerStr c.sku = "" := by
      rw [← hq, hc]
      rfl
    exact hsku ((lowerStr_eq_empty_iff _).mp hempty)
  have hfind : skuMatchOf catalog (lowerStr (stripStr query)) = some c := by
    unfold skuMatchOf
    cases hf : catalog.find? (fun item => lowerStr item.sku = lowerStr (stripStr query)) with
    | none =>
      exfalso
      have := List.find?_eq_none.mp hf c hmem
      apply this
      rw [hq]
      exact decide_eq_true rfl
    | some p =>
      have hp := List.find?_some hf
      have hpm := List.mem_of_find?_eq_some hf
      rw [decide_eq_true_eq] at hp
      have : p = c := huniq p hpm c hmem (by rw [hp, hq])
      rw [this]
  have hnc : ¬ noChannels (lookupBuild (stripStr query)
      (skuMatchOf catalog (lowerStr (stripStr query)))
      (nameHitsOf catalog (lowerStr (stripStr query)))
      (categoryHitsOf catalog (lowerStr (stripStr query)))
      (searchIkeaItems ikea (lowerStr (stripStr query)) 5)) := by
    rw [noChannels_build_iff]
    rintro ⟨h1, -, -, -⟩
    rw [hfind] at h1
    cases h1
  have hres : lookup_product catalog ikea query = lookupBuild (stripStr query)
      (skuMatchOf catalog (lowerStr (stripStr query)))
      (nameHitsOf catalog (lowerStr (stripStr query)))
      (categoryHitsOf catalog (lowerStr (stripStr query)))
      (searchIkeaItems ikea (lowerStr (stripStr query)) 5) := by
    unfold lookup_product
    rw [if_neg hqne, if_neg hnc]
  refine ⟨by rw [hres]; rfl, by rw [hres]; exact hfind, ?_⟩
  rw [hres]
  unfold lookupBuild
  simp only
  rw [if_neg]
  rw [hfind]
  rintro ⟨-, h2⟩
  cases h2

/-- Witness for `lookup_product_exact_sku`: a differently-cased SKU query. -/
theorem lookup_product_exact_sku_witness :
    (⟨"SKU-1", "Oak Chair", "chairs", ["red"]⟩ : CatalogItem) ∈
      [(⟨"SKU-1", "Oak Chair", "chairs", ["red"]⟩ : CatalogItem)] ∧
    (lookup_product [⟨"SKU-1", "Oak Chair", "chairs", ["red"]⟩] [] "sKu-1").ok = true ∧
    (lookup_product [⟨"SKU-1", "Oak Chair", "chairs", ["red"]⟩] [] "sKu-1").catalog_match =
      some ⟨"SKU-1", "Oak Chair", "chairs", ["red"]⟩ ∧
    (lookup_product [⟨"SKU-1", "Oak Chair", "chairs", ["red"]⟩] [] "sKu-1").catalog_results =
      none :=
  ⟨by decide,
    lookup_product_exact_sku [⟨"SKU-1", "Oak Chair", "chairs", ["red"]⟩] []
      ⟨"SKU-1", "Oak Chair", "chairs", ["red"]⟩ "sKu-1"
      (by decide) (by decide) (by decide) (by decide)⟩

/-- **C9**: `lookup_product` returns `{ok: false}` exactly when the query
is empty/whitespace (with the prompt-for-input message) or when none of the
four channels produce anything (with the no-products message naming the
query); otherwise it succeeds with the echoed query and the channels as
computed (name/color results being suppressed by a SKU best match). -/
theorem lookup_product_failure_characterization
    (catalog : List CatalogItem) (ikea : List IkeaItem) (query : String) :
    ((lookup_product catalog ikea query).ok = false ↔
      (stripStr query = "" ∨
        (skuMatchOf catalog (lowerStr (stripStr query)) = none ∧
          nameHitsOf catalog (lowerStr (stripStr query)) = [] ∧
          categoryHitsOf catalog (lowerStr (stripStr query)) = [] ∧
          searchIkeaItems ikea (lowerStr (stripStr query)) 5 = []))) ∧
    (stripStr query = "" →
      lookup_product catalog ikea query =
        ⟨false, some "Please provide a product keyword, SKU, or IKEA item ID.",
          none, none, none, none, none⟩) ∧
    (stripStr query ≠ "" →
      skuMatchOf catalog (lowerStr (stripStr query)) = none →
      nameHitsOf catalog (lowerStr (stripStr query)) = [] →
      categoryHitsOf catalog (lowerStr (stripStr query)) = [] →
      searchIkeaItems ikea (lowerStr (stripStr query)) 5 = [] →
      lookup_product catalog ikea query =
        ⟨false, some ("No products found for \x27" ++ stripStr query ++ "\x27."),
          none, none, none, none, none⟩) ∧
    ((lookup_product catalog ikea query).ok = true →
      lookup_product catalog ikea query = lookupBuild (stripStr query)
        (skuMatchOf catalog (lowerStr (stripStr query)))
        (nameHitsOf catalog (lowerStr (stripStr query)))
        (categoryHitsOf catalog (lowerStr (stripStr query)))
        (searchIkeaItems ikea (lowerStr (stripStr query)) 5)) := by
  by_cases h0 : stripStr query = ""
  · refine ⟨?_, ?_, ?_, ?_⟩
    · simp [lookup_product, h0]
    · intro _
      simp [lookup_product, h0]
    · intro hc
      exact absurd h0 hc
    · intro hok
      exfalso
      have : (lookup_product catalog ikea query).ok = false := by
        simp [lookup_product, h0]
      rw [hok] at this
      cases this
  · by_cases h1 : noChannels (lookupBuild (stripStr query)
        (skuMatchOf catalog (lowerStr (stripStr query)))
        (nameHitsOf catalog (lowerStr (stripStr query)))
        (categoryHitsOf catalog (lowerStr (stripStr query)))
        (searchIkeaItems ikea (lowerStr (stripStr query)) 5))
    · have hres : lookup_product catalog ikea query =
          ⟨false, some ("No products found for \x27" ++ stripStr query ++ "\x27."),
            none, none, none, none, none⟩ := by
        unfold lookup_product
        rw [if_neg h0, if_pos h1]
      have hch := (noChannels_build_iff _ _ _ _ _).mp h1
      refine ⟨?_, fun hc => absurd hc h0, fun _ _ _ _ _ => hres, ?_⟩
      · rw [hres]
        constructor
        · intro _
          right
          exact hch
        · intro _
          rfl
      · intro hok
        rw [hres] at hok
        exact Bool.noConfusion hok
    · have hres : lookup_product catalog ikea query = lookupBuild (stripStr query)
          (skuMatchOf catalog (lowerStr (stripStr query)))
          (nameHitsOf catalog (lowerStr (stripStr query)))
          (categoryHitsOf catalog (lowerStr (stripStr query)))
          (searchIkeaItems ikea (lowerStr (stripStr query)) 5) := by
        unfold lookup_product
        rw [if_neg h0, if_neg h1]
      refine ⟨?_, fun hc => absurd hc h0, ?_, fun _ => hres⟩
      · rw [hres]
        constructor
        · intro hfalse
          exact Bool.noConfusion hfalse
        · intro hor
          rcases hor with hc | hc
          · exact absurd hc h0
          · exact absurd ((noChannels_build_iff _ _ _ _ _).mpr hc) h1
      · intro _ ha hb hcc hd
        exact absurd ((noChannels_build_iff _ _ _ _ _).mpr ⟨ha, hb, hcc, hd⟩) h1

/-- Witness for `lookup_product_failure_characterization` on concrete
inputs. -/
theorem lookup_product_failure_characterization_witness :
    ((lookup_product [] [] "   ").ok = false ↔
      (stripStr "   " = "" ∨
        (skuMatchOf [] (lowerStr (stripStr "   ")) = none ∧
          nameHitsOf [] (lowerStr (stripStr "   ")) = [] ∧
          categoryHitsOf [] (lowerStr (stripStr "   ")) = [] ∧
          searchIkeaItems [] (lowerStr (stripStr "   ")) 5 = []))) ∧
    (stripStr "   " = "" →
      lookup_product [] [] "   " =
        ⟨false, some "Please provide a product keyword, SKU, or IKEA item ID.",
          none, none, none, none, none⟩) ∧
    (stripStr "   " ≠ "" →
      skuMatchOf [] (lowerStr (stripStr "   ")) = none →
      nameHitsOf [] (lowerStr (stripStr "   ")) = [] →
      categoryHitsOf [] (lowerStr (stripStr "   ")) = [] →
      searchIkeaItems [] (lowerStr (stripStr "   ")) 5 = [] →
      lookup_product [] [] "   " =
        ⟨false, some ("No products found for \x27" ++ stripStr "   " ++ "\x27."),
          none, none, none, none, none⟩) ∧
    ((lookup_product [] [] "   ").ok = true →
      lookup_product [] [] "   " = lookupBuild (stripStr "   ")
        (skuMatchOf [] (lowerStr (stripStr "   ")))
        (nameHitsOf [] (lowerStr (stripStr "   ")))
        (categoryHitsOf [] (lowerStr (stripStr "   ")))
        (searchIkeaItems [] (lowerStr (stripStr "   ")) 5)) :=
  lookup_product_failure_characterization [] [] "   "

/-! ## Tool dispatcher (`_call_tool` in src/app.py)

Tool arguments arrive as a plain string-to-string mapping (the
SDK-specific protobuf bridging of `_function_args_to_dict` is outside the
core; all declared parameters are strings).  Python `f(**args)` raises
`TypeError` on unexpected or missing keyword arguments; that fallible
unpacking is modelled by `Except String`, and `call_tool` (the embedding of
`_call_tool`) catches the error exactly as the `except TypeError` clause
does.  The `record_*` tools append a log line (out of scope here) and
return a fixed acknowledgement. -/

deriving instance DecidableEq for Except

/-- The uniform result envelope every tool returns to the orchestrator. -/
inductive ToolResult where
  | failure (msg : String)
  | lookupR (r : LookupResult)
  | repairR (r : RepairResult)
  | ack (msg : String)
deriving DecidableEq

/-- Keyword-argument lookup of a required parameter; absent ⇒ the
`TypeError` text CPython raises for a missing argument. -/
def getReq (args : List (String × String)) (tool k : String) : Except String String :=
  match lookupA args k with
  | some v => .ok v
  | none => .error (tool ++ "() missing 1 required positional argument: \x27" ++ k ++ "\x27")

/-- Reject keyword arguments outside the tool signature, with CPython's
unexpected-keyword `TypeError` text. -/
def checkNoExtra (args : List (String × String)) (tool : String) (allowed : List String) :
    Except String Unit :=
  match args.find? (fun p => !(allowed.contains p.1)) with
  | some p => .error (tool ++ "() got an unexpected keyword argument \x27" ++ p.1 ++ "\x27")
  | none => .ok ()

/-- An optional keyword argument with its Python default. -/
def getOpt (args : List (String × String)) (k d : String) : String :=
  (lookupA args k).getD d

/-- The five tools `_call_tool` knows (src/app.py lines 150-159). -/
def knownToolNames : List String :=
  ["lookup_product", "estimate_repair", "record_customer_interest", "record_feedback",
    "record_service_feedback"]

/-- The body of the `try` block of `_call_tool`: bind the arguments to the
selected tool's Python signature and run it; an unknown name returns the
failure envelope normally (no exception). -/
def invokeTool (catalog : List CatalogItem) (ikea : List IkeaItem) (rules : PriceTable)
    (name : String) (args : List (String × String)) : Except String ToolResult :=
  if name = "lookup_product" then do
    checkNoExtra args name ["query"]
    let q ← getReq args name "query"
    pure (.lookupR (lookup_product catalog ikea q))
  else if name = "estimate_repair" then do
    checkNoExtra args name ["issue", "material", "size_category"]
    let issue ← getReq args name "issue"
    pure (.repairR (estimate_repair rules issue (getOpt args "material" "any")
      (getOpt args "size_category" "medium")))
  else if name = "record_customer_interest" then do
    checkNoExtra args name ["email", "name", "message"]
    let _ ← getReq args name "email"
    let _ ← getReq args name "name"
    let _ ← getReq args name "message"
    pure (.ack "Thanks! We\x27ll follow up soon.")
  else if name = "record_feedback" then do
    checkNoExtra args name ["question"]
    let _ ← getReq args name "question"
    pure (.ack "Noted. We\x27ll improve our answers.")
  else if name = "record_service_feedback" then do
    checkNoExtra args name ["email", "name", "service_type", "satisfaction", "comments"]
    let _ ← getReq args name "email"
    let _ ← getReq args name "name"
    let _ ← getReq args name "service_type"
    let _ ← getReq args name "satisfaction"
    pure (.ack "Thanks for the feedback! We\x27ll share it with the team.")
  else
    pure (.failure ("Unknown tool \x27" ++ name ++ "\x27."))

/-- `_call_tool(name, args)` (src/app.py lines 148-162): run the tool,
converting any argument-binding `TypeError` into a failure envelope. -/
def call_tool (catalog : List CatalogItem) (ikea : List IkeaItem) (rules : PriceTable)
    (name : String) (args : List (String × String)) : ToolResult :=
  match invokeTool catalog ikea rules name args with
  | .ok r => r
  | .error e => .failure ("Invalid arguments for " ++ name ++ ": " ++ e)

/-- **C3**: dispatching an unknown tool name returns a failure result
naming the tool, and an argument-shape mismatch on a known tool is caught
and converted into a failure result naming the tool and the original error
text; `call_tool` is total, so no such mismatch escapes as a fault. -/
theorem call_tool_error_handling
    (catalog : List CatalogItem) (ikea : List IkeaItem) (rules : PriceTable)
    (name : String) (args : List (String × String)) :
    (¬ name ∈ knownToolNames →
      call_tool catalog ikea rules name args =
        .failure ("Unknown tool \x27" ++ name ++ "\x27.")) ∧
    (∀ e, invokeTool catalog ikea rules name args = .error e →
      call_tool catalog ikea rules name args =
        .failure ("Invalid arguments for " ++ name ++ ": " ++ e)) := by
  constructor
  · intro hunk
    have h1 : ¬ name = "lookup_product" := by
      intro hc
      apply hunk
      rw [hc]
      decide
    have h2 : ¬ name = "estimate_repair" := by
      intro hc
      apply hunk
      rw [hc]
      decide
    have h3 : ¬ name = "record_customer_interest" := by
      intro hc
      apply hunk
      rw [hc]
      decide
    have h4 : ¬ name = "record_feedback" := by
      intro hc
      apply hunk
      rw [hc]
      decide
    have h5 : ¬ name = "record_service_feedback" := by
      intro hc
      apply hunk
      rw [hc]
      decide
    have hinv : invokeTool catalog ikea rules name args =
        .ok (.failure ("Unknown tool \x27" ++ name ++ "\x27.")) := by
      unfold invokeTool
      rw [if_neg h1, if_neg h2, if_neg h3, if_neg h4, if_neg h5]
      rfl
    unfold call_tool
    rw [hinv]
  · intro e he
    unfold call_tool
    rw [he]

/-- Witness for `call_tool_error_handling`: an unknown tool and a known
tool called with an unexpected keyword argument. -/
theorem call_tool_error_handling_witness :
    ¬ "teleport" ∈ knownToolNames ∧
    call_tool [] [] [] "teleport" [] = .failure "Unknown tool \x27teleport\x27." ∧
    invokeTool [] [] [] "lookup_product" [("q", "sofa")] =
      .error "lookup_product() got an unexpected keyword argument \x27q\x27" ∧
    call_tool [] [] [] "lookup_product" [("q", "sofa")] =
      .failure ("Invalid arguments for lookup_product: " ++
        "lookup_product() got an unexpected keyword argument \x27q\x27") :=
  ⟨by decide,
    (call_tool_error_handling [] [] [] "teleport" []).1 (by decide),
    by decide,
    (call_tool_error_handling [] [] [] "lookup_product" [("q", "sofa")]).2
      "lookup_product() got an unexpected keyword argument \x27q\x27" (by decide)⟩

/-! ## Conversation orchestrator (`chat_fn` in src/app.py)

The hosted model is an oracle: `oracle i` is the model's `i`-th response in
the turn (`oracle 0` answers the user message; `oracle (i+1)` answers the
`i`-th function-response message).  The unbounded `while True` loop is
embedded with fuel; `none` means the fuel ran out while the Python loop
would still be running. -/

/-- A structured function-call request found in a response part. -/
structure FnCall where
  name : String
  args : List (String × String)
deriving DecidableEq

/-- One part of a candidate's content: possibly a function call, possibly
text. -/
structure Part where
  function_call : Option FnCall
  text : Option String
deriving DecidableEq

/-- One response candidate; `content = none` models a falsy
candidate/content that `_first_function_call` skips. -/
structure Candidate where
  content : Option (List Part)
deriving DecidableEq

/-- A model response: its candidates and its aggregated `.text` (absent
when the model produced no text). -/
structure ModelResponse where
  candidates : List Candidate
  text : Option String
deriving DecidableEq

/-- Scan parts in order for the first function call. -/
def firstFnCallParts : List Part → Option FnCall
  | [] => none
  | p :: ps =>
    match p.function_call with
    | some fc => some fc
    | none => firstFnCallParts ps

/-- Scan candidates in order, skipping falsy content. -/
def firstFnCallCands : List Candidate → Option FnCall
  | [] => none
  | c :: cs =>
    match c.content with
    | none => firstFnCallCands cs
    | some parts =>
      match firstFnCallParts parts with
      | some fc => some fc
      | none => firstFnCallCands cs

/-- `_first_function_call(response)` (src/app.py lines 165-172). -/
def first_function_call (r : ModelResponse) : Option FnCall :=
  firstFnCallCands r.candidates

/-- The function-response message `_send_function_response` sends back
(src/app.py lines 228-240). -/
structure FnResponseMsg where
  name : String
  response : ToolResult
deriving DecidableEq

/-- The `while True` tool loop of `chat_fn` (src/app.py lines 252-259),
with the trailing text extraction (lines 261-262).  `i` indexes the oracle
and `sent` accumulates the function-response messages sent so far. -/
def chatLoop (catalog : List CatalogItem) (ikea : List IkeaItem) (rules : PriceTable)
    (oracle : Nat → ModelResponse) :
    Nat → Nat → List FnResponseMsg → Option (List FnResponseMsg × String)
  | 0, _, _ => none
  | fuel + 1, i, sent =>
    match first_function_call (oracle i) with
    | none => some (sent, stripStr ((oracle i).text.getD ""))
    | some fc =>
      chatLoop catalog ikea rules oracle fuel (i + 1)
        (sent ++ [⟨fc.name, call_tool catalog ikea rules fc.name fc.args⟩])

/-- `chat_fn` (src/app.py lines 243-262): run the tool loop from the first
response and return the sent function-response messages with the final
trimmed text. -/
def chat_fn (catalog : List CatalogItem) (ikea : List IkeaItem) (rules : PriceTable)
    (oracle : Nat → ModelResponse) (fuel : Nat) : Option (List FnResponseMsg × String) :=
  chatLoop catalog ikea rules oracle fuel 0 []

theorem chatLoop_spec (catalog : List CatalogItem) (ikea : List IkeaItem)
    (rules : PriceTable) (oracle : Nat → ModelResponse) :
    ∀ (n start : Nat) (sent : List FnResponseMsg) (fuel : Nat), n < fuel →
      (∀ i < n, (first_function_call (oracle (start + i))).isSome) →
      first_function_call (oracle (start + n)) = none →
      ∃ tr, chatLoop catalog ikea rules oracle fuel start sent =
          some (sent ++ tr, stripStr ((oracle (start + n)).text.getD "")) ∧
        tr.length = n ∧
        ∀ i, i < n → ∃ fc, first_function_call (oracle (start + i)) = some fc ∧
          tr.get? i = some ⟨fc.name, call_tool catalog ikea rules fc.name fc.args⟩ := by
  intro n
  induction n with
  | zero =>
    intro start sent fuel hfuel _ hstop
    cases fuel with
    | zero => omega
    | succ f =>
      refine ⟨[], ?_, rfl, by omega⟩
      rw [Nat.add_zero] at hstop
      simp only [chatLoop, hstop, Nat.add_zero]
      rw [List.append_nil]
  | succ n ih =>
    intro start sent fuel hfuel hcalls hstop
    cases fuel with
    | zero => omega
    | succ f =>
      have h0 : (first_function_call (oracle start)).isSome := by
        have := hcalls 0 (by omega)
        rwa [Nat.add_zero] at this
      obtain ⟨fc, hfc⟩ := Option.isSome_iff_exists.mp h0
      have hcalls' : ∀ i < n, (first_function_call (oracle (start + 1 + i))).isSome := by
        intro i hi
        have := hcalls (i + 1) (by omega)
        rwa [show start + (i + 1) = start + 1 + i by omega] at this
      have hstop' : first_function_call (oracle (start + 1 + n)) = none := by
        rwa [show start + (n + 1) = start + 1 + n by omega] at hstop
      obtain ⟨tr, hloop, hlen, htr⟩ := ih (start + 1)
        (sent ++ [⟨fc.name, call_tool catalog ikea rules fc.name fc.args⟩]) f
        (by omega) hcalls' hstop'
      refine ⟨⟨fc.name, call_tool catalog ikea rules fc.name fc.args⟩ :: tr, ?_, ?_, ?_⟩
      · simp only [chatLoop, hfc]
        rw [hloop, show start + 1 + n = start + (n + 1) by omega, List.append_assoc,
          List.singleton_append]
      · simp [hlen]
      · intro i hi
        cases i with
        | zero =>
          rw [Nat.add_zero]
          exact ⟨fc, hfc, rfl⟩
        | succ i =>
          obtain ⟨fc2, hfc2, hget⟩ := htr i (by omega)
          refine ⟨fc2, ?_, hget⟩
          rwa [show start + 1 + i = start + (i + 1) by omega] at hfc2

/-- **C1**: when the model's responses 0..n-1 each contain a function-call
part and response n contains none, `chat_fn` performs exactly n
tool-dispatch cycles — cycle i dispatches the first function-call part
found across response i's candidates/parts and sends the result back as a
function-response message — and then returns response n's text with
surrounding whitespace trimmed (the empty string when the model returned no
text). -/
theorem chat_fn_dispatch_cycles
    (catalog : List CatalogItem) (ikea : List IkeaItem) (rules : PriceTable)
    (oracle : Nat → ModelResponse) (n : Nat)
    (hcalls : ∀ i < n, (first_function_call (oracle i)).isSome)
    (hstop : first_function_call (oracle n) = none) :
    ∀ fuel, n < fuel →
      ∃ trace, chat_fn catalog ikea rules oracle fuel =
          some (trace, stripStr ((oracle n).text.getD "")) ∧
        trace.length = n ∧
        ∀ i, i < n → ∃ fc, first_function_call (oracle i) = some fc ∧
          trace.get? i = some ⟨fc.name, call_tool catalog ikea rules fc.name fc.args⟩ := by
  intro fuel hfuel
  obtain ⟨tr, hloop, hlen, htr⟩ := chatLoop_spec catalog ikea rules oracle n 0 [] fuel hfuel
    (by
      intro i hi
      rw [Nat.zero_add]
      exact hcalls i hi)
    (by
      rw [Nat.zero_add]
      exact hstop)
  refine ⟨tr, ?_, hlen, ?_⟩
  · unfold chat_fn
    rw [hloop, Nat.zero_add, List.nil_append]
  · intro i hi
    obtain ⟨fc, hfc, hget⟩ := htr i hi
    rw [Nat.zero_add] at hfc
    exact ⟨fc, hfc, hget⟩

/-- The spec-scenario oracle: the model asks for `lookup_product`, then
`record_customer_interest`, then answers in plain text. -/
def witOracle : Nat → ModelResponse
  | 0 => ⟨[⟨some [⟨some ⟨"lookup_product", [("query", "blue sofa")]⟩, none⟩]⟩], none⟩
  | 1 => ⟨[⟨some [⟨some ⟨"record_customer_interest",
      [("email", "a@b.c"), ("name", "Ann"), ("message", "wants the sofa")]⟩, none⟩]⟩], none⟩
  | _ => ⟨[⟨some [⟨none, some "  Here you go!  "⟩]⟩], some "  Here you go!  "⟩

/-- Witness for `chat_fn_dispatch_cycles` on the two-tool spec scenario. -/
theorem chat_fn_dispatch_cycles_witness :
    (∀ i < 2, (first_function_call (witOracle i)).isSome) ∧
    first_function_call (witOracle 2) = none ∧
    2 < 3 ∧
    (∃ trace, chat_fn [] [] [] witOracle 3 =
        some (trace, stripStr ((witOracle 2).text.getD "")) ∧
      trace.length = 2 ∧
      ∀ i, i < 2 → ∃ fc, first_function_call (witOracle i) = some fc ∧
        trace.get? i = some ⟨fc.name, call_tool [] [] [] fc.name fc.args⟩) :=
  ⟨by decide, by decide, by decide,
    chat_fn_dispatch_cycles [] [] [] witOracle 2 (by decide) (by decide) 3 (by decide)⟩

end FixFurn
